import Mathlib

/-!
# Verification of the PageRank core (Ty700/PageRank)

Shallow embedding of the C++ PageRank engine (`src/graph.cpp`, `lib/graph.h`).
C++ `double` values are modelled by exact rationals `ℚ`; the literals
`0.75` and `1e-6` become the rationals `3/4` and `1/1000000`, and division
is the (total) rational division.  `std::vector` becomes `List`,
`std::map<std::string,int>` becomes an association list searched front to
back (keys are unique because insertion is guarded by a membership test,
exactly as in `Graph::add_node`).  Matrices built by the C++ code are pure
values, so they are embedded as functions `Nat → Nat → ℚ` indexed exactly
as the loops index the `std::vector<std::vector<double>>` they fill.
-/

namespace PageRank

/-- `ALPHA = 0.75`, the damping factor (`lib/graph.h`). -/
def ALPHA : ℚ := 3/4

/-- `EPSILON = 1e-6`, the convergence threshold (`lib/graph.h`). -/
def EPSILON : ℚ := 1/1000000

/-- `MAX_ITER = 100`, the iteration cap (`lib/graph.h`). -/
def MAX_ITER : Nat := 100

/-- The `Graph` class state (`lib/graph.h`): adjacency matrix of ints,
label-to-index map, (unused) index-to-label list, and the node count. -/
structure Graph where
  adj : List (List Nat)
  node_to_index : List (String × Nat)
  index_to_node : List String
  num_nodes : Nat
  deriving DecidableEq

/-- `Graph()` — the default constructor: everything empty
(`create_graph` in the spec's interface listing). -/
def create_graph : Graph := ⟨[], [], [], 0⟩

/-- `std::map::find` on the label map: first binding whose key equals
`lbl`, searched in list order. -/
def findIndex (lbl : String) : List (String × Nat) → Option Nat
  | [] => none
  | (k, v) :: rest => if lbl = k then some v else findIndex lbl rest

/-- `std::vector::resize(n, fill)`: keep the first `n` elements, pad with
`fill` up to length `n`. -/
def resizeFill {α : Type} (v : List α) (n : Nat) (fill : α) : List α :=
  v.take n ++ List.replicate (n - v.length) fill

/-- `Graph::add_node` (`graph.cpp`): no-op when the label is present;
otherwise bind `lbl ↦ num_nodes`, bump the count, resize the outer
adjacency vector to the new count (new rows default to `{}`) and resize
every row to the new count filling with `0`. -/
def add_node (g : Graph) (lbl : String) : Graph :=
  match findIndex lbl g.node_to_index with
  | some _ => g
  | none =>
    let n := g.num_nodes + 1
    { adj := (resizeFill g.adj n []).map (fun row => resizeFill row n 0)
      node_to_index := (lbl, g.num_nodes) :: g.node_to_index
      index_to_node := g.index_to_node
      num_nodes := n }

/-- `Graph::add_edge` (`graph.cpp`): if either endpoint label is unknown,
return unchanged; otherwise set `adj[src_index][dest_index] = 1`. -/
def add_edge (g : Graph) (src dest : String) : Graph :=
  match findIndex src g.node_to_index, findIndex dest g.node_to_index with
  | some src_index, some dest_index =>
    { g with adj := g.adj.set src_index ((g.adj.getD src_index []).set dest_index 1) }
  | _, _ => g

/-- Read `adj[i][j]`, defaulting out-of-range reads to `0`. -/
def adjAt (g : Graph) (i j : Nat) : Nat :=
  (g.adj.getD i []).getD j 0

/-- `Graph::compute_out_degrees` for a single node `i`: the sum of row `i`
of the adjacency matrix, `Σ_{j < num_nodes} adj[i][j]`. -/
def out_degree (g : Graph) (i : Nat) : Nat :=
  ((List.range g.num_nodes).map (fun j => adjAt g i j)).sum

/-- `Graph::build_transition_matrix` (`graph.cpp`): the double loop runs
`row` then `col` over `[0, num_nodes)` and assigns the TRANSPOSED cell
`transition_matrix[col][row]`, namely `1/num_nodes` when
`out_degrees[row] == 0` and `adj[row][col] / out_degrees[row]` otherwise.
Here `i` is the C++ `col` and `j` is the C++ `row`, so the cell `(i, j)`
of the built matrix is as below. -/
def transition (g : Graph) (i j : Nat) : ℚ :=
  if out_degree g j = 0 then 1 / (g.num_nodes : ℚ)
  else (adjAt g j i : ℚ) / (out_degree g j : ℚ)

/-- `Graph::build_teleportation_matrix` (`graph.cpp`): every cell is
`1/num_nodes`. -/
def teleportation (g : Graph) (_i _j : Nat) : ℚ :=
  1 / (g.num_nodes : ℚ)

/-- `Graph::build_google_matrix` (`graph.cpp`):
`google_matrix[row][col] = ALPHA * transition_matrix[row][col]
 + (1.0 - ALPHA) * teleportation_matrix[row][col]`. -/
def google (g : Graph) (i j : Nat) : ℚ :=
  ALPHA * transition g i j + (1 - ALPHA) * teleportation g i j

/-- The inner matrix–vector product of `Graph::compute_pagerank`:
`r_new[row] = Σ_{col < num_nodes} google_matrix[row][col] * r_old[col]`. -/
def matVec (g : Graph) (G : Nat → Nat → ℚ) (r : List ℚ) : List ℚ :=
  (List.range g.num_nodes).map
    (fun row => ((List.range g.num_nodes).map (fun col => G row col * r.getD col 0)).sum)

/-- `Graph::compute_difference` (`graph.cpp`): the L1 distance
`Σ_{i < num_nodes} |r_old[i] - r_new[i]|`. -/
def compute_difference (g : Graph) (r_old r_new : List ℚ) : ℚ :=
  ((List.range g.num_nodes).map (fun i => |r_old.getD i 0 - r_new.getD i 0|)).sum

/-- The `for(i = 0; i < MAX_ITER; i++)` loop of `Graph::compute_pagerank`
(`graph.cpp`): each pass computes `r_new = G · r_old`, breaks when the L1
difference is `< EPSILON`, and otherwise sets `r_old = r_new` and
continues; when the fuel (remaining passes) runs out the current `r_new`
is returned, exactly as the C++ returns `r_new` after the loop. -/
def powerLoop (g : Graph) (G : Nat → Nat → ℚ) : Nat → List ℚ → List ℚ → List ℚ
  | 0, _, r_new => r_new
  | fuel + 1, r_old, _ =>
    let r_n := matVec g G r_old
    if compute_difference g r_old r_n < EPSILON then r_n
    else powerLoop g G fuel r_n r_n

/-- `Graph::compute_pagerank` (`graph.cpp`, the `std::vector<double>`
definition actually present): build the Google matrix, start from
`r_old = uniform 1/num_nodes` and `r_new = zeros`, run the loop, return
`r_new`. -/
def compute_pagerank_core (g : Graph) : List ℚ :=
  powerLoop g (google g) MAX_ITER
    (List.replicate g.num_nodes (1 / (g.num_nodes : ℚ)))
    (List.replicate g.num_nodes 0)

/-- The result record declared in `lib/graph.h`: final score vector,
per-iteration convergence differences, and the iteration count. -/
structure PageRankResult where
  pagerank_vector : List ℚ
  convergence_history : List ℚ
  iterations : Nat
  deriving DecidableEq

/-- Modelled from the spec: the repository's `lib/graph.h` declares
`PageRankResult compute_pagerank()` (and the python bindings read its
three fields), but the definition present in `src/graph.cpp` still
returns only the score vector.  The missing bookkeeping is modelled from
the spec's words: the loop below is the source loop of
`Graph::compute_pagerank`, additionally recording each iteration's L1
difference (one entry per iteration performed) and counting iterations,
with the converging iteration included in the count. -/
def powerLoopInstr (g : Graph) (G : Nat → Nat → ℚ) :
    Nat → List ℚ → List ℚ → Nat → List ℚ → PageRankResult
  | 0, _, r_new, iters, hist => ⟨r_new, hist, iters⟩
  | fuel + 1, r_old, _, iters, hist =>
    let r_n := matVec g G r_old
    let d := compute_difference g r_old r_n
    if d < EPSILON then ⟨r_n, hist ++ [d], iters + 1⟩
    else powerLoopInstr g G fuel r_n r_n (iters + 1) (hist ++ [d])

/-- Modelled from the spec: the `PageRankResult`-returning
`compute_pagerank` of `lib/graph.h` — the source solver loop, packaged
with iteration count and convergence history as the spec describes. -/
def compute_pagerank (g : Graph) : PageRankResult :=
  powerLoopInstr g (google g) MAX_ITER
    (List.replicate g.num_nodes (1 / (g.num_nodes : ℚ)))
    (List.replicate g.num_nodes 0) 0 []

/-- Well-formedness of the `Graph` state: the adjacency matrix is square
with both dimensions equal to `num_nodes`, and every index bound in the
label map is below `num_nodes`.  This holds for `Graph()` and is
preserved by `add_node` and `add_edge`. -/
def wf (g : Graph) : Prop :=
  g.adj.length = g.num_nodes ∧
  (∀ row ∈ g.adj, row.length = g.num_nodes) ∧
  (∀ p ∈ g.node_to_index, p.2 < g.num_nodes)

instance (g : Graph) : Decidable (wf g) := by
  unfold wf; infer_instance

/-! ## Spec-side definitions (for refinement comparisons)

These follow the SPEC's words, to be compared with the definitions above
that were translated from the source. -/

/-- The transition matrix as the spec's words describe it: for a node
`row` with out-degree `d > 0`, cell `(row, col)` is `adj[row][col] / d`;
for a node `row` with out-degree `0` the entire ROW is `1/N`. -/
def transition_spec (g : Graph) (row col : Nat) : ℚ :=
  if out_degree g row = 0 then 1 / (g.num_nodes : ℚ)
  else (adjAt g row col : ℚ) / (out_degree g row : ℚ)

/-- The solver loop as the spec's words describe it: compute
`r_new = G · r_old`; if the L1 distance is below `EPSILON` stop and
return `r_new`, otherwise set `r_old = r_new` and continue; if the
iteration budget is exhausted, return the last computed vector. -/
def spec_iter (g : Graph) (G : Nat → Nat → ℚ) : Nat → List ℚ → List ℚ
  | 0, r_old => r_old
  | fuel + 1, r_old =>
    let r_n := matVec g G r_old
    if compute_difference g r_old r_n < EPSILON then r_n
    else spec_iter g G fuel r_n

/-- The power-iteration solver as the spec's words describe it: start
from the uniform vector `1/N` and run at most `MAX_ITER` passes. -/
def spec_power_iteration (g : Graph) : List ℚ :=
  spec_iter g (google g) MAX_ITER (List.replicate g.num_nodes (1 / (g.num_nodes : ℚ)))

/-! ## Concrete example graphs -/

/-- A one-node graph: `add_node("A")`. -/
def exGraph1 : Graph := add_node create_graph "A"

/-- A two-node graph `A → B`; node `B` is dangling. -/
def exGraph2 : Graph :=
  add_edge (add_node (add_node create_graph "A") "B") "A" "B"

/-- A three-node graph `A → B`, `A → C`, `B → C`; node `C` is dangling. -/
def exGraph3 : Graph :=
  add_edge (add_edge (add_edge
    (add_node (add_node (add_node create_graph "A") "B") "C")
    "A" "B") "A" "C") "B" "C"

/-! ## Helper lemmas -/

/-- On a zero-node graph the matrix–vector product is the empty vector:
the row loop runs zero times. -/
lemma matVec_of_no_nodes (g : Graph) (h : g.num_nodes = 0)
    (G : Nat → Nat → ℚ) (r : List ℚ) : matVec g G r = [] := by
  simp [matVec, h]

/-- On a zero-node graph the L1 difference is `0`: the sum loop runs zero
times. -/
lemma compute_difference_of_no_nodes (g : Graph) (h : g.num_nodes = 0)
    (r s : List ℚ) : compute_difference g r s = 0 := by
  simp [compute_difference, h]

/-- One unfolding step of the solver loop. -/
lemma powerLoop_succ (g : Graph) (G : Nat → Nat → ℚ) (fuel : Nat)
    (r_old r_new : List ℚ) :
    powerLoop g G (fuel + 1) r_old r_new =
      if compute_difference g r_old (matVec g G r_old) < EPSILON then matVec g G r_old
      else powerLoop g G fuel (matVec g G r_old) (matVec g G r_old) := rfl

/-- One unfolding step of the instrumented solver loop. -/
lemma powerLoopInstr_succ (g : Graph) (G : Nat → Nat → ℚ) (fuel : Nat)
    (r_old r_new : List ℚ) (iters : Nat) (hist : List ℚ) :
    powerLoopInstr g G (fuel + 1) r_old r_new iters hist =
      if compute_difference g r_old (matVec g G r_old) < EPSILON then
        ⟨matVec g G r_old, hist ++ [compute_difference g r_old (matVec g G r_old)], iters + 1⟩
      else powerLoopInstr g G fuel (matVec g G r_old) (matVec g G r_old) (iters + 1)
        (hist ++ [compute_difference g r_old (matVec g G r_old)]) := rfl

/-- On a zero-node graph `compute_pagerank` converges on the very first
pass (both vectors are empty, the L1 difference is `0 < EPSILON`) and
returns the empty vector after exactly one iteration. -/
lemma compute_pagerank_of_no_nodes (g : Graph) (h : g.num_nodes = 0) :
    compute_pagerank g = ⟨[], [0], 1⟩ := by
  unfold compute_pagerank MAX_ITER
  rw [h]
  simp only [List.replicate_zero]
  show powerLoopInstr g (google g) (99 + 1) [] [] 0 [] = ⟨[], [0], 1⟩
  rw [powerLoopInstr_succ, matVec_of_no_nodes g h, compute_difference_of_no_nodes g h,
    if_pos (by norm_num [EPSILON])]
  simp

/-- On a zero-node graph the score-vector-only `compute_pagerank` of
`graph.cpp` returns the empty vector. -/
lemma compute_pagerank_core_of_no_nodes (g : Graph) (h : g.num_nodes = 0) :
    compute_pagerank_core g = [] := by
  unfold compute_pagerank_core MAX_ITER
  rw [h]
  simp only [List.replicate_zero]
  show powerLoop g (google g) (99 + 1) [] [] = []
  rw [powerLoop_succ, matVec_of_no_nodes g h, compute_difference_of_no_nodes g h,
    if_pos (by norm_num [EPSILON])]

/-- As long as at least one pass remains, the source loop and the
spec-worded loop agree (the initial `r_new = zeros` of the source loop is
dead state). -/
lemma powerLoop_eq_spec_iter (g : Graph) (G : Nat → Nat → ℚ) :
    ∀ fuel r_old r_new, fuel ≠ 0 →
      powerLoop g G fuel r_old r_new = spec_iter g G fuel r_old := by
  intro fuel
  induction fuel with
  | zero => intro _ _ h; exact absurd rfl h
  | succ f ih =>
    intro r_old r_new _
    rw [powerLoop_succ, spec_iter]
    by_cases hd : compute_difference g r_old (matVec g G r_old) < EPSILON
    · simp only [if_pos hd]
    · simp only [if_neg hd]
      cases f with
      | zero => rfl
      | succ f' => exact ih _ _ (Nat.succ_ne_zero f')

/-! ## Claims -/

/-- C1, counterexample: in the two-node graph `A → B`, node `0` (= `A`)
has out-degree `1 > 0`, yet the cell `(0, 1)` of the matrix built by
`build_transition_matrix` is NOT `adj[0][1] / 1 = 1` (it is `1/2`,
because the code fills the transposed cell and node `B` is dangling). -/
theorem c1_counterexample :
    0 < out_degree exGraph2 0 ∧
    transition exGraph2 0 1 ≠ (adjAt exGraph2 0 1 : ℚ) / (out_degree exGraph2 0 : ℚ) := by
  have hdeg0 : out_degree exGraph2 0 = 1 := by decide
  have hdeg1 : out_degree exGraph2 1 = 0 := by decide
  have hadj : adjAt exGraph2 0 1 = 1 := by decide
  have hN : exGraph2.num_nodes = 2 := by decide
  constructor
  · rw [hdeg0]; norm_num
  · simp only [transition, hdeg1, hdeg0, hadj, hN]
    norm_num

/-- C1, amended: `build_transition_matrix` writes `matrix[col][row]`
inside its row-major loop, so it produces the TRANSPOSE of the matrix the
claim describes: cell `(row, col)` equals the spec-worded matrix's cell
`(col, row)`.  Consequently a dangling node's COLUMN (not row) is
uniform: in the three-node graph where `C` (index 2) has no outgoing
edges, the transition column for `C` is `[1/3, 1/3, 1/3]`. -/
theorem c1_transition_is_transpose :
    (∀ (g : Graph) (row col : Nat), transition g row col = transition_spec g col row) ∧
    transition exGraph3 0 2 = 1/3 ∧
    transition exGraph3 1 2 = 1/3 ∧
    transition exGraph3 2 2 = 1/3 := by
  have hdeg : out_degree exGraph3 2 = 0 := by decide
  have hN : exGraph3.num_nodes = 3 := by decide
  refine ⟨fun _ _ _ => rfl, ?_, ?_, ?_⟩ <;>
    simp only [transition, hdeg, hN] <;> norm_num

/-- C9: `build_google_matrix` combines element-wise,
`G[row][col] = ALPHA * T[row][col] + (1 - ALPHA) * P[row][col]`, where
every entry of the teleportation matrix `P` is `1/N` and `ALPHA` is the
fixed constant `0.75 = 3/4`. -/
theorem c9_google_matrix :
    ∀ (g : Graph) (row col : Nat),
      google g row col = ALPHA * transition g row col + (1 - ALPHA) * teleportation g row col ∧
      teleportation g row col = 1 / (g.num_nodes : ℚ) ∧
      ALPHA = 3/4 :=
  fun _ _ _ => ⟨rfl, rfl, rfl⟩

/-- C4: the solver of `compute_pagerank` refines the spec's description
of power iteration: starting from the uniform vector `1/N`, iterating
`r_new[row] = Σ_col G[row][col] * r_old[col]`, stopping when the L1
distance drops below `EPSILON = 1e-6`, else continuing with
`r_old = r_new` for at most `MAX_ITER = 100` passes and returning the
last computed vector. -/
theorem c4_solver_refines_spec (g : Graph) :
    compute_pagerank_core g = spec_power_iteration g ∧
    MAX_ITER = 100 ∧ EPSILON = 1/1000000 := by
  refine ⟨?_, rfl, rfl⟩
  exact powerLoop_eq_spec_iter g (google g) MAX_ITER _ _ (by decide)

/-- C2, counterexample: `compute_pagerank` called on the zero-node graph
does not fail with an "empty graph" error — there is no `N == 0` check
anywhere in `Graph::compute_pagerank`; it returns normally, with the
empty score vector. -/
theorem c2_counterexample :
    compute_pagerank_core create_graph = [] ∧
    compute_pagerank create_graph = ⟨[], [0], 1⟩ :=
  ⟨compute_pagerank_core_of_no_nodes create_graph rfl,
   compute_pagerank_of_no_nodes create_graph rfl⟩

/-- C2, amended: `compute_pagerank` performs no `N == 0` detection and
raises no "empty graph" error: on any graph with zero nodes it returns
normally with the empty score vector, converging on the first iteration
(all loops over `num_nodes` are empty, so no division is reached inside
them). -/
theorem c2_no_empty_graph_check (g : Graph) (h : g.num_nodes = 0) :
    compute_pagerank_core g = [] ∧ (compute_pagerank g).iterations = 1 := by
  refine ⟨compute_pagerank_core_of_no_nodes g h, ?_⟩
  rw [compute_pagerank_of_no_nodes g h]

/-- C2, witness for the amended claim at the concrete empty graph. -/
theorem c2_no_empty_graph_check_witness :
    create_graph.num_nodes = 0 ∧
    (compute_pagerank_core create_graph = [] ∧
      (compute_pagerank create_graph).iterations = 1) :=
  ⟨rfl, c2_no_empty_graph_check create_graph rfl⟩

/-- C10: on a graph with zero nodes `compute_pagerank` raises no error
and returns the empty score vector: every matrix is `0 × 0`, the L1
difference between the two empty vectors is `0`, which is below
`EPSILON`, so the iteration loop exits on its first pass. -/
theorem c10_zero_nodes_graceful :
    (compute_pagerank create_graph).pagerank_vector = [] ∧
    (compute_pagerank create_graph).iterations = 1 ∧
    (compute_pagerank create_graph).convergence_history = [0] ∧
    compute_difference create_graph [] [] = 0 ∧
    compute_difference create_graph [] [] < EPSILON := by
  rw [compute_pagerank_of_no_nodes create_graph rfl,
    compute_difference_of_no_nodes create_graph rfl [] []]
  refine ⟨rfl, rfl, rfl, rfl, by norm_num [EPSILON]⟩

/-- C5, counterexample: on the zero-node graph the returned score vector
is empty, so its entries sum to `0`, not `1` — the claim's "for every
graph" fails on the empty graph. -/
theorem c5_counterexample :
    (compute_pagerank_core create_graph).sum ≠ 1 := by
  rw [compute_pagerank_core_of_no_nodes create_graph rfl]
  norm_num

/-! ## Probability-mass preservation (for C5) -/

/-- A list built by mapping over `List.range` sums like the
corresponding `Finset.range` sum. -/
lemma range_map_sum {M : Type} [AddCommMonoid M] (n : Nat) (f : Nat → M) :
    ((List.range n).map f).sum = ∑ i in Finset.range n, f i := by
  induction n with
  | zero => simp
  | succ k ih =>
    rw [List.range_succ, List.map_append, List.sum_append, Finset.sum_range_succ, ih]
    simp

/-- Summing positional reads of a list over its whole index range gives
the list sum. -/
lemma sum_getD (r : List ℚ) : ∑ i in Finset.range r.length, r.getD i 0 = r.sum := by
  induction r with
  | nil => simp
  | cons a t ih =>
    rw [List.length_cons, Finset.sum_range_succ']
    simp only [List.getD_cons_succ, List.getD_cons_zero]
    rw [ih, List.sum_cons, add_comm]

/-- The out-degree, cast to `ℚ`, is the sum of the (cast) adjacency row. -/
lemma out_degree_cast (g : Graph) (col : Nat) :
    (out_degree g col : ℚ) = ∑ row in Finset.range g.num_nodes, (adjAt g col row : ℚ) := by
  rw [out_degree, range_map_sum]
  push_cast
  rfl

/-- Every column of the matrix built by `build_transition_matrix` sums to
`1` (the matrix is column-stochastic): a dangling source contributes a
uniform column `1/N`, any other source contributes its adjacency row
divided by its out-degree. -/
lemma transition_col_sum (g : Graph) (hN : g.num_nodes ≠ 0) (col : Nat) :
    ∑ row in Finset.range g.num_nodes, transition g row col = 1 := by
  by_cases hd : out_degree g col = 0
  · simp only [transition, hd, if_pos]
    rw [Finset.sum_const, Finset.card_range, nsmul_eq_mul, mul_one_div,
      div_self (Nat.cast_ne_zero.mpr hN)]
  · simp only [transition, hd, if_neg, if_false]
    rw [← Finset.sum_div, ← out_degree_cast,
      div_self (Nat.cast_ne_zero.mpr hd)]

/-- Every column of the Google matrix sums to `1`. -/
lemma google_col_sum (g : Graph) (hN : g.num_nodes ≠ 0) (col : Nat) :
    ∑ row in Finset.range g.num_nodes, google g row col = 1 := by
  simp only [google, teleportation]
  rw [Finset.sum_add_distrib, ← Finset.mul_sum, ← Finset.mul_sum,
    transition_col_sum g hN col, Finset.sum_const, Finset.card_range,
    nsmul_eq_mul, mul_one_div, div_self (Nat.cast_ne_zero.mpr hN)]
  norm_num

/-- The matrix–vector product has one entry per node. -/
lemma matVec_length (g : Graph) (G : Nat → Nat → ℚ) (r : List ℚ) :
    (matVec g G r).length = g.num_nodes := by
  simp [matVec]

/-- Multiplying a length-`N` vector by a matrix whose columns each sum to
`1` preserves the sum of the entries. -/
lemma matVec_sum (g : Graph) (G : Nat → Nat → ℚ)
    (hcol : ∀ col, ∑ row in Finset.range g.num_nodes, G row col = 1)
    (r : List ℚ) (hr : r.length = g.num_nodes) :
    (matVec g G r).sum = r.sum := by
  rw [matVec, range_map_sum]
  calc ∑ row in Finset.range g.num_nodes,
        ((List.range g.num_nodes).map (fun col => G row col * r.getD col 0)).sum
      = ∑ row in Finset.range g.num_nodes, ∑ col in Finset.range g.num_nodes,
          G row col * r.getD col 0 :=
        Finset.sum_congr rfl (fun _ _ => range_map_sum _ _)
    _ = ∑ col in Finset.range g.num_nodes, ∑ row in Finset.range g.num_nodes,
          G row col * r.getD col 0 := Finset.sum_comm
    _ = ∑ col in Finset.range g.num_nodes,
          (∑ row in Finset.range g.num_nodes, G row col) * r.getD col 0 :=
        Finset.sum_congr rfl (fun _ _ => (Finset.sum_mul _ _ _).symm)
    _ = ∑ col in Finset.range g.num_nodes, r.getD col 0 :=
        Finset.sum_congr rfl (fun col _ => by rw [hcol col, one_mul])
    _ = r.sum := by rw [← hr, sum_getD]

/-- The solver loop preserves total probability mass `1` (the `r_new`
argument only matters when no pass remains). -/
lemma powerLoop_sum (g : Graph) (hN : g.num_nodes ≠ 0) :
    ∀ (fuel : Nat) (r_old r_new : List ℚ),
      r_old.length = g.num_nodes → r_old.sum = 1 →
      (fuel = 0 → r_new.sum = 1) →
      (powerLoop g (google g) fuel r_old r_new).sum = 1 := by
  intro fuel
  induction fuel with
  | zero => intro r_old r_new _ _ h0; exact h0 rfl
  | succ f ih =>
    intro r_old r_new hlen hsum _
    rw [powerLoop_succ]
    have hmsum : (matVec g (google g) r_old).sum = 1 := by
      rw [matVec_sum g (google g) (google_col_sum g hN) r_old hlen, hsum]
    by_cases hd : compute_difference g r_old (matVec g (google g) r_old) < EPSILON
    · rw [if_pos hd]; exact hmsum
    · rw [if_neg hd]
      exact ih _ _ (matVec_length g _ _) hmsum (fun _ => hmsum)

/-- C5, amended: for every graph with at least one node, the score
vector returned by `compute_pagerank` has entries that sum to exactly
`1` (in the exact-rational model of the floating-point arithmetic); on
the zero-node graph the returned vector is empty and sums to `0`. -/
theorem c5_scores_sum_to_one (g : Graph) (hN : 0 < g.num_nodes) :
    (compute_pagerank_core g).sum = 1 := by
  have hN' : g.num_nodes ≠ 0 := Nat.pos_iff_ne_zero.mp hN
  unfold compute_pagerank_core
  apply powerLoop_sum g hN'
  · exact List.length_replicate _ _
  · rw [List.sum_replicate, nsmul_eq_mul, mul_one_div,
      div_self (Nat.cast_ne_zero.mpr hN')]
  · intro h; exact absurd h (by decide)

/-- C5, witness for the amended claim at the one-node graph. -/
theorem c5_scores_sum_to_one_witness :
    0 < exGraph1.num_nodes ∧ (compute_pagerank_core exGraph1).sum = 1 :=
  ⟨by decide, c5_scores_sum_to_one exGraph1 (by decide)⟩

/-! ## Graph Store lemmas (for C6, C7, C8, C3) -/

/-- `add_node` on a label that is already present returns the graph
unchanged. -/
lemma add_node_of_found (g : Graph) (lbl : String) (k : Nat)
    (h : findIndex lbl g.node_to_index = some k) : add_node g lbl = g := by
  simp only [add_node, h]

/-- `add_node` on a fresh label, written out. -/
lemma add_node_of_fresh (g : Graph) (lbl : String)
    (h : findIndex lbl g.node_to_index = none) :
    add_node g lbl =
      { adj := (resizeFill g.adj (g.num_nodes + 1) []).map
          (fun row => resizeFill row (g.num_nodes + 1) 0)
        node_to_index := (lbl, g.num_nodes) :: g.node_to_index
        index_to_node := g.index_to_node
        num_nodes := g.num_nodes + 1 } := by
  simp only [add_node, h]

/-- Any row read (in range) of a well-formed adjacency matrix has
`num_nodes` entries. -/
lemma row_length_of_wf (g : Graph) (hwf : wf g) (i : Nat) (hi : i < g.num_nodes) :
    (g.adj.getD i []).length = g.num_nodes := by
  obtain ⟨hlen, hrows, -⟩ := hwf
  have hib : i < g.adj.length := hlen ▸ hi
  rw [List.getD_eq_getElem _ _ hib]
  exact hrows _ (g.adj.getElem_mem hib)

/-- On a well-formed graph, adding a fresh node appends one `0` to every
existing row and appends one all-`0` row: exactly the two `resize`
calls of `Graph::add_node`. -/
lemma add_node_adj_of_fresh (g : Graph) (lbl : String) (hwf : wf g)
    (h : findIndex lbl g.node_to_index = none) :
    (add_node g lbl).adj =
      g.adj.map (fun row => row ++ [0]) ++ [List.replicate (g.num_nodes + 1) 0] := by
  obtain ⟨hlen, hrows, -⟩ := hwf
  rw [add_node_of_fresh g lbl h]
  show (resizeFill g.adj (g.num_nodes + 1) []).map
      (fun row => resizeFill row (g.num_nodes + 1) 0) = _
  unfold resizeFill
  rw [List.take_of_length_le (by omega), hlen,
    Nat.add_sub_cancel_left, List.replicate_one, List.map_append]
  congr 1
  refine List.map_congr_left (fun row hrow => ?_)
  rw [List.take_of_length_le (by rw [hrows row hrow]; omega), hrows row hrow,
    Nat.add_sub_cancel_left, List.replicate_one]

/-- Adding a fresh node to a well-formed graph preserves every existing
adjacency entry. -/
lemma add_node_row_of_fresh (g : Graph) (lbl : String) (hwf : wf g)
    (h : findIndex lbl g.node_to_index = none) (i : Nat) (hi : i < g.num_nodes) :
    (add_node g lbl).adj.getD i [] = g.adj.getD i [] ++ [0] := by
  have hlen : g.adj.length = g.num_nodes := hwf.1
  have hib : i < g.adj.length := hlen ▸ hi
  have him : i < (g.adj.map (fun row => row ++ [0])).length := by
    rw [List.length_map]; exact hib
  rw [add_node_adj_of_fresh g lbl hwf h,
    List.getD_append _ _ _ i him, List.getD_eq_getElem _ _ him,
    List.getElem_map, List.getD_eq_getElem g.adj [] hib]

/-- Adding a fresh node to a well-formed graph preserves every existing
adjacency entry. -/
lemma adjAt_add_node_of_fresh (g : Graph) (lbl : String) (hwf : wf g)
    (h : findIndex lbl g.node_to_index = none) (i j : Nat)
    (hi : i < g.num_nodes) (hj : j < g.num_nodes) :
    adjAt (add_node g lbl) i j = adjAt g i j := by
  rw [adjAt, add_node_row_of_fresh g lbl hwf h i hi,
    List.getD_append _ _ _ j (by rw [row_length_of_wf g hwf i hi]; exact hj)]
  rfl

/-- Adding a fresh node to a well-formed graph initializes the new row
and the new column to `0`. -/
lemma adjAt_add_node_new_entries (g : Graph) (lbl : String) (hwf : wf g)
    (h : findIndex lbl g.node_to_index = none) (k : Nat) (hk : k ≤ g.num_nodes) :
    adjAt (add_node g lbl) k g.num_nodes = 0 ∧
    adjAt (add_node g lbl) g.num_nodes k = 0 := by
  have hlen : g.adj.length = g.num_nodes := hwf.1
  constructor
  · rcases Nat.lt_or_ge k g.num_nodes with hk' | hk'
    · have hrl : (g.adj.getD k []).length = g.num_nodes :=
        row_length_of_wf g hwf k hk'
      rw [adjAt, add_node_row_of_fresh g lbl hwf h k hk',
        List.getD_append_right _ _ _ _ (by omega), hrl, Nat.sub_self]
      rfl
    · have hkN : k = g.num_nodes := Nat.le_antisymm hk hk'
      subst hkN
      rw [adjAt, add_node_adj_of_fresh g lbl hwf h,
        List.getD_append_right _ _ _ _ (by rw [List.length_map, hlen]),
        List.length_map, hlen, Nat.sub_self]
      show (List.replicate (g.num_nodes + 1) 0).getD g.num_nodes 0 = 0
      rw [List.getD_eq_getElem?_getD, List.getElem?_replicate]
      simp
  · rw [adjAt, add_node_adj_of_fresh g lbl hwf h,
      List.getD_append_right _ _ _ _ (by rw [List.length_map, hlen]),
      List.length_map, hlen, Nat.sub_self]
    show (List.replicate (g.num_nodes + 1) 0).getD k 0 = 0
    rw [List.getD_eq_getElem?_getD, List.getElem?_replicate]
    split <;> rfl

/-- A successful `findIndex` result is a value bound in the map. -/
lemma findIndex_mem :
    ∀ (m : List (String × Nat)) (lbl : String) (v : Nat),
      findIndex lbl m = some v → ∃ k, (k, v) ∈ m := by
  intro m
  induction m with
  | nil => intro lbl v h; simp [findIndex] at h
  | cons p rest ih =>
    intro lbl v h
    obtain ⟨k, w⟩ := p
    rw [findIndex] at h
    by_cases hkl : lbl = k
    · rw [if_pos hkl] at h
      exact ⟨k, by rw [← Option.some_inj.mp h]; exact List.mem_cons_self _ _⟩
    · rw [if_neg hkl] at h
      obtain ⟨k', hk'⟩ := ih lbl v h
      exact ⟨k', List.mem_cons_of_mem _ hk'⟩

/-- On a well-formed graph, any index found in the label map is a valid
node index. -/
lemma findIndex_lt_of_wf (g : Graph) (hwf : wf g) (lbl : String) (v : Nat)
    (h : findIndex lbl g.node_to_index = some v) : v < g.num_nodes := by
  obtain ⟨k, hk⟩ := findIndex_mem g.node_to_index lbl v h
  exact hwf.2.2 (k, v) hk

/-- `add_edge` with at least one unknown endpoint label returns the graph
unchanged. -/
lemma add_edge_of_unknown (g : Graph) (src dest : String)
    (h : findIndex src g.node_to_index = none ∨
         findIndex dest g.node_to_index = none) :
    add_edge g src dest = g := by
  cases h with
  | inl h => cases hd : findIndex dest g.node_to_index <;> simp [add_edge, h, hd]
  | inr h => cases hs : findIndex src g.node_to_index <;> simp [add_edge, h, hs]

/-- `add_edge` with both endpoint labels known, written out. -/
lemma add_edge_of_known (g : Graph) (src dest : String) (si di : Nat)
    (hsrc : findIndex src g.node_to_index = some si)
    (hdst : findIndex dest g.node_to_index = some di) :
    add_edge g src dest =
      { g with adj := g.adj.set si ((g.adj.getD si []).set di 1) } := by
  simp only [add_edge, hsrc, hdst]

/-- On a well-formed graph, `add_edge` with known labels writes `1` at
`adj[index(src)][index(dest)]`. -/
lemma adjAt_add_edge_set (g : Graph) (src dest : String) (si di : Nat)
    (hwf : wf g)
    (hsrc : findIndex src g.node_to_index = some si)
    (hdst : findIndex dest g.node_to_index = some di) :
    adjAt (add_edge g src dest) si di = 1 := by
  have hsi : si < g.num_nodes := findIndex_lt_of_wf g hwf src si hsrc
  have hdi : di < g.num_nodes := findIndex_lt_of_wf g hwf dest di hdst
  have hsib : si < g.adj.length := hwf.1 ▸ hsi
  have hrl : (g.adj.getD si []).length = g.num_nodes := row_length_of_wf g hwf si hsi
  rw [add_edge_of_known g src dest si di hsrc hdst, adjAt]
  show ((g.adj.set si ((g.adj.getD si []).set di 1)).getD si []).getD di 0 = 1
  rw [List.getD_eq_getElem?_getD (g.adj.set si ((g.adj.getD si []).set di 1)) si [],
    List.getElem?_set_self hsib, Option.getD_some,
    List.getD_eq_getElem?_getD, List.getElem?_set_self (by rw [hrl]; exact hdi),
    Option.getD_some]

/-- On a well-formed graph, `add_edge` with known labels changes no
adjacency entry other than the one it sets. -/
lemma adjAt_add_edge_other (g : Graph) (src dest : String) (si di a b : Nat)
    (hsrc : findIndex src g.node_to_index = some si)
    (hdst : findIndex dest g.node_to_index = some di)
    (hab : ¬(a = si ∧ b = di)) :
    adjAt (add_edge g src dest) a b = adjAt g a b := by
  rw [add_edge_of_known g src dest si di hsrc hdst, adjAt, adjAt]
  show ((g.adj.set si ((g.adj.getD si []).set di 1)).getD a []).getD b 0 =
    (g.adj.getD a []).getD b 0
  by_cases ha : si = a
  · subst ha
    have hb : di ≠ b := fun hb => hab ⟨rfl, hb.symm⟩
    rcases Nat.lt_or_ge si g.adj.length with hsib | hsib
    · rw [List.getD_eq_getElem?_getD (g.adj.set si _), List.getElem?_set_self hsib,
        Option.getD_some, List.getD_eq_getElem?_getD ((g.adj.getD si []).set di 1),
        List.getElem?_set_ne hb, ← List.getD_eq_getElem?_getD]
    · rw [List.set_eq_of_length_le (Nat.le_of_not_lt (fun hc => absurd hc (by omega)))]
  · rw [List.getD_eq_getElem?_getD (g.adj.set si _), List.getElem?_set_ne ha,
      ← List.getD_eq_getElem?_getD]

/-- On a well-formed graph, re-adding an edge changes nothing beyond the
first call. -/
lemma add_edge_idem_of_known (g : Graph) (src dest : String) (si di : Nat)
    (hwf : wf g)
    (hsrc : findIndex src g.node_to_index = some si)
    (hdst : findIndex dest g.node_to_index = some di) :
    add_edge (add_edge g src dest) src dest = add_edge g src dest := by
  have hsi : si < g.num_nodes := findIndex_lt_of_wf g hwf src si hsrc
  have hsib : si < g.adj.length := hwf.1 ▸ hsi
  rw [add_edge_of_known g src dest si di hsrc hdst]
  generalize hG : ({ g with adj := g.adj.set si ((g.adj.getD si []).set di 1) } : Graph) = g2
  have hsrc2 : findIndex src g2.node_to_index = some si := by rw [← hG]; exact hsrc
  have hdst2 : findIndex dest g2.node_to_index = some di := by rw [← hG]; exact hdst
  rw [add_edge_of_known g2 src dest si di hsrc2 hdst2]
  have hadj : g2.adj = g.adj.set si ((g.adj.getD si []).set di 1) := by rw [← hG]
  have hget : g2.adj.getD si [] = (g.adj.getD si []).set di 1 := by
    rw [hadj, List.getD_eq_getElem?_getD, List.getElem?_set_self hsib, Option.getD_some]
  have hset : g2.adj.set si ((g2.adj.getD si []).set di 1) = g2.adj := by
    rw [hget, hadj, List.set_set, List.set_set]
  rw [hset]

/-- `Graph()` is well-formed. -/
lemma wf_create_graph : wf create_graph := by decide

/-- `add_node` preserves well-formedness. -/
lemma wf_add_node (g : Graph) (lbl : String) (hwf : wf g) : wf (add_node g lbl) := by
  cases hf : findIndex lbl g.node_to_index with
  | some k => rw [add_node_of_found g lbl k hf]; exact hwf
  | none =>
    obtain ⟨hlen, hrows, hidx⟩ := hwf
    have hA := add_node_adj_of_fresh g lbl ⟨hlen, hrows, hidx⟩ hf
    have hN : (add_node g lbl).num_nodes = g.num_nodes + 1 := by
      rw [add_node_of_fresh g lbl hf]
    have hM : (add_node g lbl).node_to_index = (lbl, g.num_nodes) :: g.node_to_index := by
      rw [add_node_of_fresh g lbl hf]
    refine ⟨?_, ?_, ?_⟩
    · rw [hA, hN, List.length_append, List.length_map, hlen]
      rfl
    · intro row hrow
      rw [hA] at hrow
      rw [hN]
      rcases List.mem_append.mp hrow with hrow | hrow
      · obtain ⟨r0, hr0, rfl⟩ := List.mem_map.mp hrow
        rw [List.length_append, hrows r0 hr0]
        rfl
      · rw [List.mem_singleton.mp hrow, List.length_replicate]
    · intro p hp
      rw [hM] at hp
      rw [hN]
      rcases List.mem_cons.mp hp with rfl | hp
      · omega
      · exact Nat.lt_succ_of_lt (hidx p hp)

/-- `add_edge` preserves well-formedness. -/
lemma wf_add_edge (g : Graph) (src dest : String) (hwf : wf g) :
    wf (add_edge g src dest) := by
  cases hs : findIndex src g.node_to_index with
  | none => rw [add_edge_of_unknown g src dest (Or.inl hs)]; exact hwf
  | some si =>
    cases hd : findIndex dest g.node_to_index with
    | none => rw [add_edge_of_unknown g src dest (Or.inr hd)]; exact hwf
    | some di =>
      obtain ⟨hlen, hrows, hidx⟩ := hwf
      rw [add_edge_of_known g src dest si di hs hd]
      refine ⟨?_, ?_, ?_⟩
      · show (g.adj.set si _).length = g.num_nodes
        rw [List.length_set]
        exact hlen
      · intro row hrow
        rcases List.mem_or_eq_of_mem_set hrow with hrow | rfl
        · exact hrows row hrow
        · rw [List.length_set]
          exact row_length_of_wf g ⟨hlen, hrows, hidx⟩ si
            (findIndex_lt_of_wf g ⟨hlen, hrows, hidx⟩ src si hs)
      · exact hidx

/-- The instrumented loop computes the same score vector as the source
loop. -/
lemma powerLoopInstr_vec (g : Graph) (G : Nat → Nat → ℚ) :
    ∀ (fuel : Nat) (r_old r_new : List ℚ) (iters : Nat) (hist : List ℚ),
      (powerLoopInstr g G fuel r_old r_new iters hist).pagerank_vector =
        powerLoop g G fuel r_old r_new := by
  intro fuel
  induction fuel with
  | zero => intro _ _ _ _; rfl
  | succ f ih =>
    intro r_old r_new iters hist
    rw [powerLoopInstr_succ, powerLoop_succ]
    by_cases hd : compute_difference g r_old (matVec g G r_old) < EPSILON
    · rw [if_pos hd, if_pos hd]
    · rw [if_neg hd, if_neg hd]
      exact ih _ _ _ _

/-- The source loop returns a vector with one entry per node. -/
lemma powerLoop_length (g : Graph) (G : Nat → Nat → ℚ) :
    ∀ (fuel : Nat) (r_old r_new : List ℚ), r_new.length = g.num_nodes →
      (powerLoop g G fuel r_old r_new).length = g.num_nodes := by
  intro fuel
  induction fuel with
  | zero => intro _ _ h; exact h
  | succ f ih =>
    intro r_old r_new _
    rw [powerLoop_succ]
    by_cases hd : compute_difference g r_old (matVec g G r_old) < EPSILON
    · rw [if_pos hd]; exact matVec_length g G r_old
    · rw [if_neg hd]; exact ih _ _ (matVec_length g G r_old)

/-- The instrumented loop records exactly one convergence difference per
iteration performed. -/
lemma powerLoopInstr_hist (g : Graph) (G : Nat → Nat → ℚ) :
    ∀ (fuel : Nat) (r_old r_new : List ℚ) (iters : Nat) (hist : List ℚ),
      hist.length = iters →
      (powerLoopInstr g G fuel r_old r_new iters hist).convergence_history.length =
        (powerLoopInstr g G fuel r_old r_new iters hist).iterations := by
  intro fuel
  induction fuel with
  | zero => intro _ _ _ _ h; exact h
  | succ f ih =>
    intro r_old r_new iters hist h
    rw [powerLoopInstr_succ]
    by_cases hd : compute_difference g r_old (matVec g G r_old) < EPSILON
    · rw [if_pos hd]
      show (hist ++ [_]).length = iters + 1
      rw [List.length_append, h]
      rfl
    · rw [if_neg hd]
      exact ih _ _ _ _ (by rw [List.length_append, h]; rfl)

/-- C6: `add_node` on a fresh label assigns the next index
(`= current node count`), increments the count, grows the adjacency
relation by one row and one column — preserving all existing entries and
initializing the new row and column to `0` — and a second `add_node`
with the same label is a no-op (the state is unchanged; the embedding is
total, so no error is raised). -/
theorem c6_add_node (g : Graph) (lbl : String) (i j k : Nat)
    (hwf : wf g) (hfresh : findIndex lbl g.node_to_index = none)
    (hi : i < g.num_nodes) (hj : j < g.num_nodes) (hk : k ≤ g.num_nodes) :
    add_node (add_node g lbl) lbl = add_node g lbl ∧
    findIndex lbl (add_node g lbl).node_to_index = some g.num_nodes ∧
    (add_node g lbl).num_nodes = g.num_nodes + 1 ∧
    adjAt (add_node g lbl) i j = adjAt g i j ∧
    adjAt (add_node g lbl) k g.num_nodes = 0 ∧
    adjAt (add_node g lbl) g.num_nodes k = 0 := by
  have hfound : findIndex lbl (add_node g lbl).node_to_index = some g.num_nodes := by
    rw [add_node_of_fresh g lbl hfresh]
    show findIndex lbl ((lbl, g.num_nodes) :: g.node_to_index) = some g.num_nodes
    rw [findIndex, if_pos rfl]
  refine ⟨add_node_of_found _ lbl g.num_nodes hfound, hfound, ?_, ?_, ?_, ?_⟩
  · rw [add_node_of_fresh g lbl hfresh]
  · exact adjAt_add_node_of_fresh g lbl hwf hfresh i j hi hj
  · exact (adjAt_add_node_new_entries g lbl hwf hfresh k hk).1
  · exact (adjAt_add_node_new_entries g lbl hwf hfresh k hk).2

/-- C6, witness: adding fresh label "B" to the one-node graph. -/
theorem c6_add_node_witness :
    wf exGraph1 ∧ findIndex "B" exGraph1.node_to_index = none ∧
    (add_node (add_node exGraph1 "B") "B" = add_node exGraph1 "B" ∧
     findIndex "B" (add_node exGraph1 "B").node_to_index = some exGraph1.num_nodes ∧
     (add_node exGraph1 "B").num_nodes = exGraph1.num_nodes + 1 ∧
     adjAt (add_node exGraph1 "B") 0 0 = adjAt exGraph1 0 0 ∧
     adjAt (add_node exGraph1 "B") 1 exGraph1.num_nodes = 0 ∧
     adjAt (add_node exGraph1 "B") exGraph1.num_nodes 1 = 0) :=
  ⟨by decide, by decide,
   c6_add_node exGraph1 "B" 0 0 1 (by decide) (by decide)
     (by decide) (by decide) (by decide)⟩

/-- C7: `add_edge` with at least one unknown label leaves the whole
graph state (node count and every adjacency entry) unchanged and raises
no error; with both labels known it sets `adj[index(src)][index(dest)]`
to `1` leaving every other entry and the node count unchanged, re-adding
the edge changes nothing beyond the first call, and self-edges
(`src == dest`) are allowed and behave the same way. -/
theorem c7_add_edge (g gU : Graph) (src dest : String) (si di a b : Nat)
    (hwf : wf g)
    (hsrc : findIndex src g.node_to_index = some si)
    (hdst : findIndex dest g.node_to_index = some di)
    (hab : ¬(a = si ∧ b = di))
    (hUnknown : findIndex src gU.node_to_index = none ∨
                findIndex dest gU.node_to_index = none) :
    add_edge gU src dest = gU ∧
    adjAt (add_edge g src dest) si di = 1 ∧
    adjAt (add_edge g src dest) a b = adjAt g a b ∧
    (add_edge g src dest).num_nodes = g.num_nodes ∧
    add_edge (add_edge g src dest) src dest = add_edge g src dest ∧
    adjAt (add_edge g src src) si si = 1 :=
  ⟨add_edge_of_unknown gU src dest hUnknown,
   adjAt_add_edge_set g src dest si di hwf hsrc hdst,
   adjAt_add_edge_other g src dest si di a b hsrc hdst hab,
   by rw [add_edge_of_known g src dest si di hsrc hdst],
   add_edge_idem_of_known g src dest si di hwf hsrc hdst,
   adjAt_add_edge_set g src src si si hwf hsrc hsrc⟩

/-- C7, witness: the two-node graph with edge `A → B` (known case) and
the empty graph (unknown case). -/
theorem c7_add_edge_witness :
    wf exGraph2 ∧
    findIndex "A" exGraph2.node_to_index = some 0 ∧
    findIndex "B" exGraph2.node_to_index = some 1 ∧
    (add_edge create_graph "A" "B" = create_graph ∧
     adjAt (add_edge exGraph2 "A" "B") 0 1 = 1 ∧
     adjAt (add_edge exGraph2 "A" "B") 1 1 = adjAt exGraph2 1 1 ∧
     (add_edge exGraph2 "A" "B").num_nodes = exGraph2.num_nodes ∧
     add_edge (add_edge exGraph2 "A" "B") "A" "B" = add_edge exGraph2 "A" "B" ∧
     adjAt (add_edge exGraph2 "A" "A") 0 0 = 1) :=
  ⟨by decide, by decide, by decide,
   c7_add_edge exGraph2 create_graph "A" "B" 0 1 1 1 (by decide) (by decide)
     (by decide) (by decide) (Or.inl (by decide))⟩

/-- C8: the adjacency relation of a well-formed graph stays a square
matrix with both dimensions equal to the node count under every
operation — the empty constructor, `add_node` and `add_edge` all
preserve well-formedness — and `add_node` grows the relation without
disturbing any existing entry. -/
theorem c8_square_invariant (g : Graph) (lbl src dest : String) (i j : Nat)
    (hwf : wf g) (hi : i < g.num_nodes) (hj : j < g.num_nodes) :
    wf create_graph ∧
    wf (add_node g lbl) ∧
    wf (add_edge g src dest) ∧
    (add_node g lbl).adj.length = (add_node g lbl).num_nodes ∧
    (add_edge g src dest).adj.length = (add_edge g src dest).num_nodes ∧
    adjAt (add_node g lbl) i j = adjAt g i j := by
  refine ⟨wf_create_graph, wf_add_node g lbl hwf, wf_add_edge g src dest hwf,
    (wf_add_node g lbl hwf).1, (wf_add_edge g src dest hwf).1, ?_⟩
  cases hf : findIndex lbl g.node_to_index with
  | some k => rw [add_node_of_found g lbl k hf]
  | none => exact adjAt_add_node_of_fresh g lbl hwf hf i j hi hj

/-- C8, witness: the two-node graph `A → B` under `add_node "C"` and
`add_edge "A" "A"`. -/
theorem c8_square_invariant_witness :
    wf exGraph2 ∧ 0 < exGraph2.num_nodes ∧ 1 < exGraph2.num_nodes ∧
    (wf create_graph ∧
     wf (add_node exGraph2 "C") ∧
     wf (add_edge exGraph2 "A" "A") ∧
     (add_node exGraph2 "C").adj.length = (add_node exGraph2 "C").num_nodes ∧
     (add_edge exGraph2 "A" "A").adj.length = (add_edge exGraph2 "A" "A").num_nodes ∧
     adjAt (add_node exGraph2 "C") 0 1 = adjAt exGraph2 0 1) :=
  ⟨by decide, by decide, by decide,
   c8_square_invariant exGraph2 "C" "A" "A" 0 1 (by decide) (by decide) (by decide)⟩

/-- C3: the result of `compute_pagerank` carries the final score vector
(the same vector the source loop computes, in node-index order with one
entry per node, so a node's score is recoverable by label because every
index bound in the label map is a valid position), the number of
iterations performed, and the per-iteration L1 convergence differences —
one entry per iteration performed. -/
theorem c3_result_contents (g : Graph) (lbl : String) (idx : Nat)
    (hwf : wf g) (hlk : findIndex lbl g.node_to_index = some idx) :
    (compute_pagerank g).pagerank_vector = compute_pagerank_core g ∧
    (compute_pagerank g).pagerank_vector.length = g.num_nodes ∧
    (compute_pagerank g).convergence_history.length = (compute_pagerank g).iterations ∧
    idx < g.num_nodes := by
  have hvec : (compute_pagerank g).pagerank_vector = compute_pagerank_core g :=
    powerLoopInstr_vec g (google g) MAX_ITER _ _ 0 []
  refine ⟨hvec, ?_, ?_, findIndex_lt_of_wf g hwf lbl idx hlk⟩
  · rw [hvec]
    exact powerLoop_length g (google g) MAX_ITER _ _ (List.length_replicate _ _)
  · exact powerLoopInstr_hist g (google g) MAX_ITER _ _ 0 [] rfl

/-- C3, witness: the one-node graph, whose label "A" maps to index 0. -/
theorem c3_result_contents_witness :
    wf exGraph1 ∧ findIndex "A" exGraph1.node_to_index = some 0 ∧
    ((compute_pagerank exGraph1).pagerank_vector = compute_pagerank_core exGraph1 ∧
     (compute_pagerank exGraph1).pagerank_vector.length = exGraph1.num_nodes ∧
     (compute_pagerank exGraph1).convergence_history.length =
       (compute_pagerank exGraph1).iterations ∧
     0 < exGraph1.num_nodes) :=
  ⟨by decide, by decide,
   c3_result_contents exGraph1 "A" 0 (by decide) (by decide)⟩

end PageRank
